import Mathlib

set_option maxRecDepth 8192
set_option maxHeartbeats 2000000

/-!
Verification development for the clause detection and risk-classification
pipeline of the LegalClauseIntelligence repository.

The Python sources `processing/detect_clauses.py` and
`processing/summarize_and_flag.py` are shallowly embedded as executable Lean
definitions.  Strings are modelled as Lean `String` / `List Char`; Python
regular-expression operations are embedded as hand-written scanners that
implement the exact leftmost, greedy, non-overlapping semantics of the
specific patterns appearing in the source; JSON documents are modelled by an
inductive `Json` type together with a recursive-descent parser standing in
for `json.loads` (numbers are modelled as exact rationals, which is adequate
because the code never performs arithmetic on them, it only stores and
truth-tests them); Python `dict`s are insertion-ordered association lists;
exceptions are modelled with `Except`.  The external Gemini service is an
oracle parameter `svc : String → Option String` mapping a clause text to the
text of the service's reply (`none` models any exception raised while
initialising the client or performing the network call; prompt construction
is folded into the oracle since the prompt is a fixed template around the
clause text and the oracle is universally quantified).
-/

/-- Python whitespace recognised by `str.strip()` and by `\s` in the `re`
patterns of the source (for the ASCII range, which is all the embedding
models). -/
def pySpace (c : Char) : Bool :=
  c = ' ' || c = '\t' || c = '\n' || c = '\r' || c = '\x0b' || c = '\x0c'

/-- Left strip on character lists, as in Python `str.strip()` (left half). -/
def pyStripLeft (l : List Char) : List Char := l.dropWhile pySpace

/-- Right strip on character lists, as in Python `str.strip()` (right half). -/
def pyStripRight (l : List Char) : List Char :=
  (l.reverse.dropWhile pySpace).reverse

/-- Both-ends strip on character lists. -/
def pyStripL (l : List Char) : List Char := pyStripRight (pyStripLeft l)

/-- Python `str.strip()` on strings. -/
def pyStrip (s : String) : String := String.mk (pyStripL s.data)

/-- Python `str.lower()` (ASCII case folding, which covers the source's
keyword catalogs and inputs). -/
def pyLower (s : String) : String := String.mk (s.data.map Char.toLower)

/-- Generic substring test on character lists: `hasSub w l` holds iff `w`
occurs contiguously inside `l`.  It embeds Python's `w in l` test on
strings. -/
def hasSub (w : List Char) : List Char → Bool
  | [] => w.isEmpty
  | c :: t => w.isPrefixOf (c :: t) || hasSub w t

/-- String-level wrapper for `hasSub`, embedding Python's `in` on `str`. -/
def hasSubStr (w s : String) : Bool := hasSub w.data s.data

/-- Index of the last `'\n'` that is reachable from the front of `l` through
whitespace characters only, i.e. the last newline inside the maximal
`\s`-run prefixing `l`.  This is exactly where the greedy `\s*` of the
pattern `\n\s*\n` places the final `\n` of a match. -/
def lastNLInRun : List Char → Option Nat
  | [] => none
  | c :: t =>
    if pySpace c then
      match lastNLInRun t with
      | some j => some (j + 1)
      | none => if c = '\n' then some 0 else none
    else none

/-- Fuel-driven worker for `collapseNL`.  The fuel only serves to make the
recursion structural (each step consumes at least one character, so fuel
equal to the length of the list is always sufficient and the fuel-exhausted
branch is unreachable from `collapseNL`). -/
def collapseNLGo : Nat → List Char → List Char
  | _, [] => []
  | 0, l => l
  | fuel + 1, c :: rest =>
    if c = '\n' then
      match lastNLInRun rest with
      | some j => '\n' :: '\n' :: collapseNLGo fuel (rest.drop (j + 1))
      | none => '\n' :: collapseNLGo fuel rest
    else c :: collapseNLGo fuel rest

/-- One pass of Python `re.sub(r'\n\s*\n', '\n\n', text)`: scanning left to
right, every leftmost match of `\n\s*\n` (greedy `\s*`) is replaced by two
newlines and scanning resumes after the match. -/
def collapseNL (l : List Char) : List Char := collapseNLGo l.length l

/-- Python `re.sub(r' +', ' ', text)`: every maximal run of spaces becomes a
single space (here realised by deleting every space that is immediately
followed by another space, which produces the same string). -/
def collapseSpaces : List Char → List Char
  | [] => []
  | [c] => [c]
  | c1 :: c2 :: t =>
    if c1 = ' ' && c2 = ' ' then collapseSpaces (c2 :: t)
    else c1 :: collapseSpaces (c2 :: t)

/-- Python `text.replace('\r\n', '\n')`: leftmost non-overlapping
replacement without rescanning the replacement text. -/
def replCRLF : List Char → List Char
  | [] => []
  | [c] => [c]
  | c :: c2 :: t =>
    if c = '\r' ∧ c2 = '\n' then '\n' :: replCRLF t
    else c :: replCRLF (c2 :: t)

/-- Python `text.replace('\r', '\n')`. -/
def replCR (l : List Char) : List Char :=
  l.map fun c => if c = '\r' then '\n' else c

/-- Embedding of `clean_text_for_clause_detection` from
`processing/detect_clauses.py`: collapse blank-line runs, collapse space
runs, normalise line endings (in that order, as in the source), then
strip. -/
def clean_text_for_clause_detection (text : String) : String :=
  String.mk (pyStripL (replCR (replCRLF (collapseSpaces (collapseNL text.data)))))

/-- ASCII uppercase letter, as matched by `[A-Z]` in the source patterns. -/
def isUpperAZ (c : Char) : Bool := 'A' ≤ c && c ≤ 'Z'

/-- Matcher for `^\s*(\d+\.\s)` at a line-start position: returns the number
of characters consumed by a (greedy) match beginning here, if any.  Because
`\s`, `\d` and the literal characters are pairwise disjoint, greedy
backtracking coincides with maximal munch for this pattern. -/
def pat1 (l : List Char) : Option Nat :=
  let w := (l.takeWhile pySpace).length
  let r1 := l.drop w
  let d := (r1.takeWhile Char.isDigit).length
  if d = 0 then none
  else
    match r1.drop d with
    | '.' :: c :: _ => if pySpace c then some (w + d + 2) else none
    | _ => none

/-- Matcher for `^\s*(\d+\.\d+\s)` at a line-start position. -/
def pat2 (l : List Char) : Option Nat :=
  let w := (l.takeWhile pySpace).length
  let r1 := l.drop w
  let d := (r1.takeWhile Char.isDigit).length
  if d = 0 then none
  else
    match r1.drop d with
    | '.' :: r2 =>
      let d2 := (r2.takeWhile Char.isDigit).length
      if d2 = 0 then none
      else
        match r2.drop d2 with
        | c :: _ => if pySpace c then some (w + d + 1 + d2 + 1) else none
        | [] => none
    | _ => none

/-- Matcher for `^\s*(\(\d+\)\s)` at a line-start position. -/
def pat3 (l : List Char) : Option Nat :=
  let w := (l.takeWhile pySpace).length
  match l.drop w with
  | '(' :: r1 =>
    let d := (r1.takeWhile Char.isDigit).length
    if d = 0 then none
    else
      match r1.drop d with
      | ')' :: c :: _ => if pySpace c then some (w + d + 3) else none
      | _ => none
  | _ => none

/-- Matcher for `^\s*([A-Z]\.\s)` at a line-start position. -/
def pat4 (l : List Char) : Option Nat :=
  let w := (l.takeWhile pySpace).length
  match l.drop w with
  | a :: '.' :: c :: _ =>
    if isUpperAZ a && pySpace c then some (w + 3) else none
  | _ => none

/-- Matcher for `^\s*(Article\s+\d+)` (case sensitive) at a line-start
position; the match ends after the digits. -/
def pat5 (l : List Char) : Option Nat :=
  let w := (l.takeWhile pySpace).length
  let r1 := l.drop w
  if "Article".data.isPrefixOf r1 then
    let r2 := r1.drop 7
    let sp := (r2.takeWhile pySpace).length
    if sp = 0 then none
    else
      let d := ((r2.drop sp).takeWhile Char.isDigit).length
      if d = 0 then none else some (w + 7 + sp + d)
  else none

/-- Matcher for `^\s*(Section\s+\d+)` (case sensitive) at a line-start
position. -/
def pat6 (l : List Char) : Option Nat :=
  let w := (l.takeWhile pySpace).length
  let r1 := l.drop w
  if "Section".data.isPrefixOf r1 then
    let r2 := r1.drop 7
    let sp := (r2.takeWhile pySpace).length
    if sp = 0 then none
    else
      let d := ((r2.drop sp).takeWhile Char.isDigit).length
      if d = 0 then none else some (w + 7 + sp + d)
  else none

/-- Fuel-driven worker embedding `re.finditer` for a `^`-anchored pattern
under `re.MULTILINE`: positions are scanned left to right, the pattern is
tried only at line-start positions, and after a match scanning resumes at
the match end.  `p` is the absolute position of the current suffix and `ls`
records whether that position is a line start.  All patterns used consume at
least one character; the `max n 1` clamp (which mirrors how `finditer`
advances past an empty match) makes this evident to the termination checker
and is inert for the patterns of the source. -/
def scanPGo : Nat → (List Char → Option Nat) → List Char → Nat → Bool → List Nat
  | _, _, [], _, _ => []
  | 0, _, _, _, _ => []
  | fuel + 1, pat, c :: t, p, ls =>
    match (if ls then pat (c :: t) else none) with
    | some n =>
      let m := max n 1
      p :: scanPGo fuel pat ((c :: t).drop m) (p + m) (((c :: t)[m - 1]?) == some '\n')
    | none => scanPGo fuel pat t (p + 1) (c = '\n')

/-- Start positions of all matches of a `^`-anchored pattern, as produced by
`re.finditer(pattern, text, re.MULTILINE)`. -/
def scanP (pat : List Char → Option Nat) (l : List Char) : List Nat :=
  scanPGo l.length pat l 0 true

/-- Embedding of the match-start-to-match-start clause extraction shared by
`detect_numbered_clauses` and `detect_header_based_clauses`: each clause
runs from one match start to the next match start (or to the end of the
text), is stripped, and is kept only if non-empty. -/
def clausesFromStarts (text : List Char) : List Nat → List String
  | [] => []
  | s :: rest =>
    let e := match rest with | [] => text.length | s' :: _ => s'
    let piece := pyStripL ((text.drop s).take (e - s))
    let tail := clausesFromStarts text rest
    if piece = [] then tail else String.mk piece :: tail

/-- The six numbered-section boundary patterns of
`detect_numbered_clauses`, in source order. -/
def numberedPatterns : List (List Char → Option Nat) :=
  [pat1, pat2, pat3, pat4, pat5, pat6]

/-- Worker for `detect_numbered_clauses`: try the patterns in order and
return the split of the first pattern with at least two matches. -/
def tryNumbered : List (List Char → Option Nat) → List Char → List String
  | [], _ => []
  | pat :: ps, txt =>
    let ms := scanP pat txt
    if 2 ≤ ms.length then clausesFromStarts txt ms else tryNumbered ps txt

/-- Embedding of `detect_numbered_clauses` from
`processing/detect_clauses.py`. -/
def detect_numbered_clauses (text : String) : List String :=
  tryNumbered numberedPatterns text.data

/-- Case-insensitive prefix test (ASCII folding), embedding how a literal
alternative of the header regex matches under `re.IGNORECASE`. -/
def ciPre : List Char → List Char → Bool
  | [], _ => true
  | _ :: _, [] => false
  | a :: as, b :: bs => (a.toLower = b.toLower) && ciPre as bs

/-- The 27 legal header literals of `detect_header_based_clauses`, in source
order.  Each source branch lists an all-caps and a capitalised variant of
the same word; under `re.IGNORECASE` both match exactly the same strings,
so one case-insensitive literal per branch is an equivalent embedding. -/
def headerWords : List String :=
  ["TERMINATION", "LIABILITY", "CONFIDENTIALITY", "NON-DISCLOSURE", "PAYMENT",
   "INTELLECTUAL PROPERTY", "GOVERNING LAW", "DISPUTE RESOLUTION",
   "FORCE MAJEURE", "INDEMNIFICATION", "WARRANTIES",
   "LIMITATION OF LIABILITY", "ENTIRE AGREEMENT", "AMENDMENT", "ASSIGNMENT",
   "SEVERABILITY", "NOTICES", "DEFINITIONS", "SCOPE OF WORK", "DELIVERABLES",
   "TERM", "RENEWAL", "CANCELLATION", "JURISDICTION", "COMPLIANCE",
   "DATA PROTECTION", "PRIVACY"]

/-- Matcher for the combined header alternation at a line-start position:
`\s*` then the first (in source order) header literal matching
case-insensitively, mirroring the leftmost-alternative semantics of the
joined pattern. -/
def headerPat (l : List Char) : Option Nat :=
  let w := (l.takeWhile pySpace).length
  let r := l.drop w
  match headerWords.find? (fun hw => ciPre hw.data r) with
  | some hw => some (w + hw.length)
  | none => none

/-- Embedding of `detect_header_based_clauses` from
`processing/detect_clauses.py`. -/
def detect_header_based_clauses (text : String) : List String :=
  let ms := scanP headerPat text.data
  if 2 ≤ ms.length then clausesFromStarts text.data ms else []

/-- Prepend a character onto the first piece of a split-in-progress. -/
def consHead (c : Char) : List (List Char) → List (List Char)
  | [] => [[c]]
  | h :: t => (c :: h) :: t

/-- Fuel-driven worker for `re.split(r'\n\s*\n', text)` (fuel as in
`collapseNLGo`). -/
def splitNNGo : Nat → List Char → List (List Char)
  | _, [] => [[]]
  | 0, l => [l]
  | fuel + 1, c :: rest =>
    if c = '\n' then
      match lastNLInRun rest with
      | some j => [] :: splitNNGo fuel (rest.drop (j + 1))
      | none => consHead '\n' (splitNNGo fuel rest)
    else consHead c (splitNNGo fuel rest)

/-- Embedding of `re.split(r'\n\s*\n', text)`: the pieces of the text
between consecutive (leftmost, greedy, non-overlapping) matches of
`\n\s*\n`. -/
def splitNN (l : List Char) : List (List Char) := splitNNGo l.length l

/-- Embedding of `detect_paragraph_based_clauses` from
`processing/detect_clauses.py`: blank-line-delimited paragraphs, stripped,
kept when longer than 100 characters. -/
def detect_paragraph_based_clauses (text : String) : List String :=
  (splitNN text.data).filterMap fun p =>
    let q := pyStripL p
    if 100 < q.length then some (String.mk q) else none

/-- Embedding of the final filter of `detect_clauses`: keep the stripped
clauses of stripped length greater than 50. -/
def postFilter (clauses : List String) : List String :=
  clauses.filterMap fun c =>
    let s := pyStrip c
    if 50 < s.length then some s else none

/-- Embedding of `return filtered_clauses if filtered_clauses else
[cleaned_text]` together with the filter loop above it. -/
def postFilterOrWhole (cleaned : String) (clauses : List String) : List String :=
  let fs := postFilter clauses
  if fs = [] then [cleaned] else fs

/-- Embedding of `detect_clauses` from `processing/detect_clauses.py`: the
whole multi-strategy clause segmenter. -/
def detect_clauses (text : String) : List String :=
  if text = "" ∨ pyStrip text = "" then []
  else
    let cleaned_text := clean_text_for_clause_detection text
    let numbered_clauses := detect_numbered_clauses cleaned_text
    let clauses :=
      if numbered_clauses ≠ [] ∧ 2 < numbered_clauses.length then
        numbered_clauses
      else
        let header_clauses := detect_header_based_clauses cleaned_text
        if header_clauses ≠ [] ∧ 1 < header_clauses.length then header_clauses
        else detect_paragraph_based_clauses cleaned_text
    postFilterOrWhole cleaned_text clauses

mutual

/-- JSON values, the model of what Python's `json.loads` can return for the
responses the code handles.  `nan` and `inf` model the non-standard float
constants `NaN`, `Infinity` and `-Infinity` that Python's decoder accepts.
Ordinary numbers are exact scaled decimals `mant * 10 ^ exp`; this is
adequate because the code never performs arithmetic on parsed numbers, it
only stores and truth-tests them (a number is falsy exactly when its
mantissa is zero). -/
inductive Json where
  | null
  | bool (b : Bool)
  | num (mant : Int) (exp : Int)
  | nan
  | inf (neg : Bool)
  | str (s : String)
  | arr (elems : JsonList)
  | obj (fields : JsonFields)
deriving DecidableEq

/-- Elements of a JSON array. -/
inductive JsonList where
  | nil
  | cons (hd : Json) (tl : JsonList)
deriving DecidableEq

/-- Members of a JSON object, which double as the model of a Python string-
keyed `dict`: an insertion-ordered sequence of key/value pairs with unique
keys. -/
inductive JsonFields where
  | nil
  | cons (k : String) (v : Json) (tl : JsonFields)
deriving DecidableEq

end

/-- A Python `dict` with string keys. -/
abbrev PyDict := JsonFields

/-- Convenience constructor for dict literals. -/
def pdict : List (String × Json) → PyDict
  | [] => JsonFields.nil
  | (k, v) :: t => JsonFields.cons k v (pdict t)

/-- Python `d.get(k)` on a dict. -/
def dictGet : PyDict → String → Option Json
  | JsonFields.nil, _ => none
  | JsonFields.cons k' v t, k => if k' = k then some v else dictGet t k

/-- Python `d[k] = v` on a dict: update in place when the key exists,
append otherwise. -/
def dictSet : PyDict → String → Json → PyDict
  | JsonFields.nil, k, v => JsonFields.cons k v JsonFields.nil
  | JsonFields.cons k' v' t, k, v =>
    if k' = k then JsonFields.cons k v t
    else JsonFields.cons k' v' (dictSet t k v)

/-- Python `k in d` on a dict. -/
def hasKey (d : PyDict) (k : String) : Bool := (dictGet d k).isSome

/-- Emptiness test for array elements. -/
def JsonList.isNil : JsonList → Bool
  | .nil => true
  | _ => false

/-- Emptiness test for object members. -/
def JsonFields.isNil : JsonFields → Bool
  | .nil => true
  | _ => false

/-- Python truthiness of a JSON value (`bool(v)`). -/
def pyTruthy : Json → Bool
  | .null => false
  | .bool b => b
  | .num m _ => decide (m ≠ 0)
  | .nan => true
  | .inf _ => true
  | .str s => decide (s ≠ "")
  | .arr es => !es.isNil
  | .obj fs => !fs.isNil

/-- Truthiness of an optional lookup result, embedding
`bool(d.get(k))` (a missing key yields `None`, which is falsy). -/
def pyTruthyOpt : Option Json → Bool
  | none => false
  | some j => pyTruthy j

/-- Whether a JSON value is an object (a Python `dict`). -/
def isObjJson : Json → Bool
  | .obj _ => true
  | _ => false

/-- JSON insignificant whitespace skipping. -/
def jskip (l : List Char) : List Char :=
  l.dropWhile fun c => c = ' ' || c = '\t' || c = '\n' || c = '\r'

/-- Hexadecimal digit value, for `\uXXXX` string escapes. -/
def hexVal (c : Char) : Option Nat :=
  if '0' ≤ c ∧ c ≤ '9' then some (c.toNat - 48)
  else if 'a' ≤ c ∧ c ≤ 'f' then some (c.toNat - 87)
  else if 'A' ≤ c ∧ c ≤ 'F' then some (c.toNat - 55)
  else none

/-- Single-character JSON string escapes. -/
def escChar (c : Char) : Option Char :=
  if c = '"' then some '"'
  else if c = '\\' then some '\\'
  else if c = '/' then some '/'
  else if c = 'b' then some '\x08'
  else if c = 'f' then some '\x0c'
  else if c = 'n' then some '\n'
  else if c = 'r' then some '\r'
  else if c = 't' then some '\t'
  else none

/-- JSON string body parser (the opening quote has already been consumed):
returns the decoded characters and the rest after the closing quote.
Unescaped control characters are rejected, as by Python's strict decoder. -/
def parseStrGo : Nat → List Char → Option (List Char × List Char)
  | _, [] => none
  | 0, _ => none
  | fuel + 1, c :: t =>
    if c = '"' then some ([], t)
    else if c = '\\' then
      match t with
      | [] => none
      | e :: t2 =>
        if e = 'u' then
          match t2 with
          | h1 :: h2 :: h3 :: h4 :: t3 =>
            match hexVal h1, hexVal h2, hexVal h3, hexVal h4 with
            | some v1, some v2, some v3, some v4 =>
              match parseStrGo fuel t3 with
              | some (s, r) =>
                some (Char.ofNat (((v1 * 16 + v2) * 16 + v3) * 16 + v4) :: s, r)
              | none => none
            | _, _, _, _ => none
          | _ => none
        else
          match escChar e with
          | some d =>
            match parseStrGo fuel t2 with
            | some (s, r) => some (d :: s, r)
            | none => none
          | none => none
    else if c.toNat < 32 then none
    else
      match parseStrGo fuel t with
      | some (s, r) => some (c :: s, r)
      | none => none

/-- Numeric value of a digit string. -/
def digitsVal (l : List Char) : Nat :=
  l.foldl (fun a c => a * 10 + (c.toNat - 48)) 0

/-- Optional exponent part of a JSON number, applied to a scaled decimal. -/
def parseExpOpt (m e : Int) (l : List Char) : Option ((Int × Int) × List Char) :=
  match l with
  | c :: t =>
    if c = 'e' || c = 'E' then
      let st := match t with
        | '+' :: t' => ((1 : Int), t')
        | '-' :: t' => ((-1 : Int), t')
        | _ => ((1 : Int), t)
      let es := st.2.takeWhile Char.isDigit
      if es.length = 0 then none
      else some ((m, e + st.1 * (digitsVal es : Int)), st.2.drop es.length)
    else some ((m, e), l)
  | [] => some ((m, e), l)

/-- JSON number after an optional leading minus sign: integer part (no
leading zeros), optional fraction, optional exponent; the result is the
scaled decimal `mant * 10 ^ exp`. -/
def parseNumAfterSign (l1 : List Char) : Option ((Int × Int) × List Char) :=
  match l1 with
  | [] => none
  | c :: _ =>
    if c.isDigit then
      let ds := l1.takeWhile Char.isDigit
      if c = '0' ∧ ds.length ≠ 1 then none
      else
        let l2 := l1.drop ds.length
        match l2 with
        | '.' :: t =>
          let fs := t.takeWhile Char.isDigit
          if fs.length = 0 then none
          else
            parseExpOpt (digitsVal ds * 10 ^ fs.length + digitsVal fs : Nat)
              (-(fs.length : Int)) (t.drop fs.length)
        | _ => parseExpOpt (digitsVal ds : Nat) 0 l2
    else none

mutual

/-- Recursive-descent JSON value parser (fuel-driven; fuel one more than the
input length always suffices since every recursive step consumes at least
one character). -/
def parseVal : Nat → List Char → Option (Json × List Char)
  | 0, _ => none
  | fuel + 1, l =>
    match l with
    | [] => none
    | c :: t =>
      if c = '"' then
        match parseStrGo (t.length + 1) t with
        | some (s, r) => some (.str (String.mk s), r)
        | none => none
      else if c = '[' then
        match jskip t with
        | ']' :: r => some (.arr .nil, r)
        | t1 =>
          match parseArrElems fuel t1 with
          | some (es, r) => some (.arr es, r)
          | none => none
      else if c = '{' then
        match jskip t with
        | '}' :: r => some (.obj .nil, r)
        | t1 =>
          match parseObjFields fuel JsonFields.nil t1 with
          | some (fs, r) => some (.obj fs, r)
          | none => none
      else if "true".data.isPrefixOf l then some (.bool true, l.drop 4)
      else if "false".data.isPrefixOf l then some (.bool false, l.drop 5)
      else if "null".data.isPrefixOf l then some (.null, l.drop 4)
      else if "NaN".data.isPrefixOf l then some (.nan, l.drop 3)
      else if "Infinity".data.isPrefixOf l then some (.inf false, l.drop 8)
      else if "-Infinity".data.isPrefixOf l then some (.inf true, l.drop 9)
      else if c = '-' then
        match parseNumAfterSign t with
        | some (me, r) => some (.num (-me.1) me.2, r)
        | none => none
      else if c.isDigit then
        match parseNumAfterSign l with
        | some (me, r) => some (.num me.1 me.2, r)
        | none => none
      else none

/-- Comma-separated JSON array elements up to the closing bracket. -/
def parseArrElems : Nat → List Char → Option (JsonList × List Char)
  | 0, _ => none
  | fuel + 1, l =>
    match parseVal fuel l with
    | some (v, r) =>
      match jskip r with
      | ',' :: r2 =>
        match parseArrElems fuel (jskip r2) with
        | some (vs, r3) => some (.cons v vs, r3)
        | none => none
      | ']' :: r2 => some (.cons v .nil, r2)
      | _ => none
    | none => none

/-- Comma-separated JSON object members up to the closing brace; a repeated
key overwrites the earlier value in place, matching Python dict
construction. -/
def parseObjFields : Nat → PyDict → List Char → Option (PyDict × List Char)
  | 0, _, _ => none
  | fuel + 1, acc, l =>
    match l with
    | '"' :: t =>
      match parseStrGo (t.length + 1) t with
      | some (k, r) =>
        match jskip r with
        | ':' :: r2 =>
          match parseVal fuel (jskip r2) with
          | some (v, r3) =>
            let acc2 := dictSet acc (String.mk k) v
            match jskip r3 with
            | ',' :: r5 => parseObjFields fuel acc2 (jskip r5)
            | '\x7d' :: r5 => some (acc2, r5)
            | _ => none
          | none => none
        | _ => none
      | none => none
    | _ => none

end

/-- Embedding of Python `json.loads`: exactly one JSON document, possibly
surrounded by whitespace; anything else raises `JSONDecodeError` (modelled
by `Except.error`). -/
def json_loads (s : String) : Except Unit Json :=
  match parseVal (s.data.length + 1) (jskip s.data) with
  | some (v, rest) => if jskip rest = [] then .ok v else .error ()
  | none => .error ()

deriving instance DecidableEq for Except

/-- Exceptions of `summarize_and_flag.py` that the embedding distinguishes:
`serviceError` stands for any exception raised while initialising the
Gemini client or performing the network call, `valueError` for the
`ValueError` raised on an empty response text, and `typeError` for the
uncaught `TypeError`/`AttributeError` raised inside `parse_gemini_response`
when `json.loads` returns a value that is not a dict. -/
inductive PyErr where
  | serviceError
  | valueError
  | typeError
deriving DecidableEq

/-- Embedding of the response cleaning at the top of
`parse_gemini_response`: strip, remove a leading markdown fence
`'```json'` and a trailing fence `'```'` if present, strip again. -/
def fenceStrip (response_text : String) : String :=
  let c1 := pyStripL response_text.data
  let c2 := if "```json".data.isPrefixOf c1 then c1.drop 7 else c1
  let c3 := if "```".data.isSuffixOf c2 then c2.take (c2.length - 3) else c2
  String.mk (pyStripL c3)

/-- Embedding of `get_default_value` from `summarize_and_flag.py`. -/
def get_default_value (field : String) : Json :=
  if field = "clause_type" then .str "Unknown"
  else if field = "summary" then .str "No summary available"
  else if field = "risk_flag" then .bool false
  else if field = "risk_reason" then .str ""
  else if field = "confidence" then .num 5 (-1)
  else .str ""

/-- The required fields validated by `parse_gemini_response`, in source
order. -/
def requiredFields : List String := ["clause_type", "summary", "risk_flag"]

/-- One iteration of the validation loop of `parse_gemini_response`: an
absent required field is assigned its default. -/
def backfillStep (a : PyDict) (f : String) : PyDict :=
  if hasKey a f then a else dictSet a f (get_default_value f)

/-- The validation loop of `parse_gemini_response`: any absent required
field is assigned its default. -/
def backfillRequired (d : PyDict) : PyDict :=
  requiredFields.foldl backfillStep d

/-- Case-insensitive literal consumption: the rest of `l` after `w`, when
`w` matches case-insensitively at the front of `l`. -/
def ciDropLit (w l : List Char) : Option (List Char) :=
  if ciPre w l then some (l.drop w.length) else none

/-- Largest index of a character other than `'\n'`, used for the greedy
backtracking of `\s*` before `([^\n]+)` when the match would otherwise run
off the end of the input. -/
def lastNonNL : List Char → Option Nat
  | [] => none
  | c :: t =>
    match lastNonNL t with
    | some j => some (j + 1)
    | none => if c = '\n' then none else some 0

/-- Embedding of `\s*([^\n]+)` with Python's greedy-backtracking
semantics: skip the maximal whitespace run, then capture greedily to the
end of the line; if the whitespace run reaches the end of the input,
backtrack to the last non-newline character.  Returns the capture and the
rest of the input after it. -/
def capLine (r : List Char) : Option (List Char × List Char) :=
  let k := (r.takeWhile pySpace).length
  if k < r.length then
    let cap := (r.drop k).takeWhile (fun c => c ≠ '\n')
    some (cap, (r.drop k).drop cap.length)
  else
    match lastNonNL r with
    | some j =>
      let cap := (r.drop j).takeWhile (fun c => c ≠ '\n')
      some (cap, (r.drop j).drop cap.length)
    | none => none

/-- Matcher for `(?:clause type|type):\s*([^\n]+)` (case-insensitive) at one
position: alternatives are tried left to right, as by the `re` engine. -/
def typeMatchAt (l : List Char) : Option (List Char) :=
  (do
    let r ← ciDropLit "clause type".data l
    match r with
    | ':' :: r2 => (capLine r2).map (fun p => p.1)
    | _ => none) <|>
  (do
    let r ← ciDropLit "type".data l
    match r with
    | ':' :: r2 => (capLine r2).map (fun p => p.1)
    | _ => none)

/-- Embedding of the greedy repetition `(?:\n[^\n:]+)*` that extends a
summary capture over following lines free of colons. -/
def extraLinesGo : Nat → List Char → List Char
  | 0, _ => []
  | _, [] => []
  | fuel + 1, c :: rest =>
    if c = '\n' then
      let seg := rest.takeWhile (fun x => x ≠ '\n' && x ≠ ':')
      if seg.isEmpty then []
      else '\n' :: (seg ++ extraLinesGo fuel (rest.drop seg.length))
    else []

/-- One alternative of the summary matcher:
`word:\s*([^\n]+(?:\n[^\n:]+)*)`. -/
def sumTry (w l : List Char) : Option (List Char) := do
  let r ← ciDropLit w l
  match r with
  | ':' :: r2 =>
    match capLine r2 with
    | some (cap, rest) => some (cap ++ extraLinesGo rest.length rest)
    | none => none
  | _ => none

/-- Matcher for `(?:summary|explanation):\s*([^\n]+(?:\n[^\n:]+)*)`
(case-insensitive) at one position. -/
def summaryMatchAt (l : List Char) : Option (List Char) :=
  sumTry "summary".data l <|> sumTry "explanation".data l

/-- Embedding of `re.search` for the capture matchers above: the match at
the leftmost position where the pattern succeeds. -/
def searchCap (mAt : List Char → Option (List Char)) : List Char → Option (List Char)
  | [] => mAt []
  | c :: t =>
    match mAt (c :: t) with
    | some g => some g
    | none => searchCap mAt t

/-- The risk-indicator words scanned by `parse_non_json_response`. -/
def riskWords : List String :=
  ["risk", "danger", "concern", "warning", "caution", "problematic"]

/-- The fully defaulted record with which `parse_non_json_response`
starts. -/
def pnjBase : PyDict :=
  pdict
    [("clause_type", .str "Unknown"),
     ("summary", .str "Could not parse AI response properly"),
     ("risk_flag", .bool false),
     ("risk_reason", .str ""),
     ("confidence", .num 5 (-1))]

/-- Embedding of `parse_non_json_response` from `summarize_and_flag.py`:
the regex-based fallback parser for non-JSON responses, starting from the
fully defaulted record `pnjBase`. -/
def parse_non_json_response (response_text : String) : PyDict :=
  let a1 := match searchCap typeMatchAt response_text.data with
    | some g => dictSet pnjBase "clause_type" (.str (pyStrip (String.mk g)))
    | none => pnjBase
  let a2 := match searchCap summaryMatchAt response_text.data with
    | some g => dictSet a1 "summary" (.str (pyStrip (String.mk g)))
    | none => a1
  if riskWords.any (fun k => hasSubStr k (pyLower response_text)) then
    dictSet (dictSet a2 "risk_flag" (.bool true))
      "risk_reason" (.str "Potential risks mentioned in analysis")
  else a2

/-- Embedding of `parse_gemini_response` from `summarize_and_flag.py`,
dict path: validate (backfill) the required fields on the decoded object,
force a placeholder risk reason when risk is flagged without a reason, and
default an absent confidence to 0.7.  `json.JSONDecodeError` is caught and
routed to the fallback parser, but when `json.loads` succeeds with a value
that is not a dict the subsequent field accesses raise an uncaught
`TypeError`/`AttributeError`, modelled by `Except.error PyErr.typeError`. -/
def parse_obj_fields (fields : PyDict) : PyDict :=
  let a1 := backfillRequired fields
  let a2 :=
    if pyTruthyOpt (dictGet a1 "risk_flag") && !pyTruthyOpt (dictGet a1 "risk_reason") then
      dictSet a1 "risk_reason"
        (.str "Potential risk detected but no specific reason provided")
    else a1
  if hasKey a2 "confidence" then a2
  else dictSet a2 "confidence" (.num 7 (-1))

/-- Embedding of `parse_gemini_response` (continued): the whole parser. -/
def parse_gemini_response (response_text : String) : Except PyErr PyDict :=
  match json_loads (fenceStrip response_text) with
  | .error _ => .ok (parse_non_json_response response_text)
  | .ok (Json.obj fields) => .ok (parse_obj_fields fields)
  | .ok _ => .error .typeError

/-- The fixed risk catalog of `detect_keyword_based_risks`: trigger phrases
and description for each of the ten categories, in source order. -/
def riskPatterns : List (List String × String) :=
  [(["auto-renew", "automatically renew", "automatic renewal", "evergreen"],
    "Automatic renewal clause - may lock you into ongoing commitments"),
   (["exclusive", "solely", "only work with", "exclusively"],
    "Exclusivity clause - may limit your business opportunities"),
   (["unlimited liability", "no limit to liability", "fully liable"],
    "Unlimited liability - you could be responsible for significant damages"),
   (["indemnify", "hold harmless", "defend and hold"],
    "Indemnification clause - you may be required to cover legal costs and damages"),
   (["terminate at will", "terminate without cause", "immediate termination"],
    "Broad termination rights - the other party can end the agreement easily"),
   (["assign all rights", "transfer ownership", "work for hire"],
    "Intellectual property assignment - you may lose rights to your work"),
   (["penalty", "liquidated damages", "substantial damages"],
    "Penalty clause - you may face financial penalties for breach"),
   (["governed by laws of", "jurisdiction of", "courts of"],
    "Jurisdiction clause - legal disputes may need to be resolved in unfavorable location"),
   (["cannot be modified", "no modifications", "written consent required"],
    "Modification restrictions - agreement may be difficult to change later"),
   (["perpetual confidentiality", "permanent non-disclosure", "indefinite confidentiality"],
    "Excessive confidentiality terms - may restrict your business activities indefinitely")]

/-- Embedding of `detect_keyword_based_risks` from
`summarize_and_flag.py`: the pure keyword risk matcher. -/
def detect_keyword_based_risks (clause_text : String) : String :=
  let clause_lower := pyLower clause_text
  let detected := riskPatterns.filterMap fun rp =>
    if rp.1.any (fun k => hasSubStr k clause_lower) then some rp.2 else none
  String.intercalate "; " detected

/-- Embedding of `analyze_single_clause` from `summarize_and_flag.py`,
parameterised by the service oracle `svc` (see the header comment):
failures of client initialisation or of the network call, an empty
response text, and a non-dict JSON response all propagate as exceptions;
on success the keyword matcher may override a negative model risk
verdict. -/
def analyze_single_clause (svc : String → Option String) (clause_text : String) :
    Except PyErr PyDict :=
  match svc clause_text with
  | none => .error .serviceError
  | some rtext =>
    if rtext = "" then .error .valueError
    else
      match parse_gemini_response rtext with
      | .error e => .error e
      | .ok analysis =>
        let additional_risks := detect_keyword_based_risks clause_text
        if additional_risks ≠ "" ∧ pyTruthyOpt (dictGet analysis "risk_flag") = false then
          .ok (dictSet (dictSet analysis "risk_flag" (.bool true))
                 "risk_reason" (.str additional_risks))
        else .ok analysis

/-- The per-clause analysis record produced by
`analyze_clauses_with_gemini` (a Python dict with a fixed key set; the
non-text fields hold whatever JSON values the parse produced). -/
structure ClauseData where
  original_text : String
  clause_type : Json
  summary : Json
  risk_flag : Json
  risk_reason : Json
  confidence : Json
deriving DecidableEq

/-- Python `d.get(k, default)`. -/
def jsonGetD (d : PyDict) (k : String) (dflt : Json) : Json :=
  (dictGet d k).getD dflt

/-- One iteration of the loop of `analyze_clauses_with_gemini`: build the
record from a successful analysis, or the fixed fallback record when
`analyze_single_clause` raised. -/
def geminiClauseRecord (svc : String → Option String) (clause_text : String) :
    ClauseData :=
  match analyze_single_clause svc clause_text with
  | .ok analysis =>
    { original_text := clause_text,
      clause_type := jsonGetD analysis "clause_type" (.str "Unknown"),
      summary := jsonGetD analysis "summary" (.str "No summary available"),
      risk_flag := jsonGetD analysis "risk_flag" (.bool false),
      risk_reason := jsonGetD analysis "risk_reason" (.str ""),
      confidence := jsonGetD analysis "confidence" (.num 0 0) }
  | .error _ =>
    { original_text := clause_text,
      clause_type := .str "Unknown",
      summary := .str "Analysis failed - manual review required",
      risk_flag := .bool true,
      risk_reason := .str "Could not analyze with AI - requires manual review",
      confidence := .num 0 0 }

/-- Embedding of `analyze_clauses_with_gemini` from
`summarize_and_flag.py`: the per-clause loop with its per-clause exception
handler. -/
def analyze_clauses_with_gemini (svc : String → Option String) :
    List String → List ClauseData
  | [] => []
  | clause_text :: rest =>
    geminiClauseRecord svc clause_text :: analyze_clauses_with_gemini svc rest

theorem dropWhile_idem (p : Char → Bool) (l : List Char) :
    (l.dropWhile p).dropWhile p = l.dropWhile p := by
  induction l with
  | nil => rfl
  | cons c t ih =>
    by_cases h : p c
    · simp [List.dropWhile_cons, h, ih]
    · simp [List.dropWhile_cons, h]

theorem head_dropWhile_not (p : Char → Bool) (l : List Char) (c : Char) (t : List Char)
    (h : l.dropWhile p = c :: t) : p c = false := by
  induction l generalizing t with
  | nil => simp at h
  | cons a as ih =>
    rw [List.dropWhile_cons] at h
    by_cases ha : p a
    · rw [if_pos ha] at h; exact ih _ h
    · rw [if_neg ha] at h
      injection h with h1 _
      subst h1
      simpa using ha

theorem pyStripRight_pre (l : List Char) : pyStripRight l <+: l := by
  have h : (pyStripRight l).reverse <:+ l.reverse := by
    unfold pyStripRight
    rw [List.reverse_reverse]
    exact List.dropWhile_suffix pySpace
  exact List.reverse_suffix.mp h

theorem pyStripRight_idem (l : List Char) :
    pyStripRight (pyStripRight l) = pyStripRight l := by
  unfold pyStripRight
  rw [List.reverse_reverse, dropWhile_idem]

theorem pyStripL_within (l : List Char) : pyStripL l <:+: l := by
  unfold pyStripL pyStripLeft
  exact ((pyStripRight_pre _).isInfix).trans ((List.dropWhile_suffix pySpace).isInfix)

theorem pyStripL_idem (l : List Char) : pyStripL (pyStripL l) = pyStripL l := by
  unfold pyStripL
  have hx : pyStripLeft (pyStripRight (pyStripLeft l)) = pyStripRight (pyStripLeft l) := by
    cases hx : pyStripRight (pyStripLeft l) with
    | nil => rfl
    | cons c t =>
      obtain ⟨s, hs⟩ := pyStripRight_pre (pyStripLeft l)
      rw [hx] at hs
      have hdw : l.dropWhile pySpace = c :: (t ++ s) := by
        unfold pyStripLeft at hs
        simpa using hs.symm
      have hc : pySpace c = false := head_dropWhile_not pySpace l c (t ++ s) hdw
      unfold pyStripLeft
      rw [List.dropWhile_cons, if_neg (by simp [hc])]
  rw [hx, pyStripRight_idem]

theorem pyStrip_idem (s : String) : pyStrip (pyStrip s) = pyStrip s := by
  unfold pyStrip
  rw [show (String.mk (pyStripL s.data)).data = pyStripL s.data from rfl, pyStripL_idem]

theorem hasSub_iff (w l : List Char) : hasSub w l = true ↔ w <:+: l := by
  induction l with
  | nil => simp [hasSub, List.isEmpty_iff, List.infix_nil]
  | cons c t ih =>
    simp only [hasSub, Bool.or_eq_true, ih, List.infix_cons_iff,
      List.isPrefixOf_iff_prefix]

theorem hasSub_false_of_infix (w l₁ l₂ : List Char) (h : l₁ <:+: l₂)
    (h2 : hasSub w l₂ = false) : hasSub w l₁ = false := by
  by_contra hc
  have h1 : hasSub w l₁ = true := by
    cases hh : hasSub w l₁
    · exact absurd hh hc
    · rfl
  have := (hasSub_iff w l₂).mpr (((hasSub_iff w l₁).mp h1).trans h)
  rw [this] at h2
  cases h2

theorem collapseSpaces_head (l : List Char) :
    (collapseSpaces l).head? = l.head? := by
  induction l using collapseSpaces.induct with
  | case1 => rfl
  | case2 c => rfl
  | case3 c1 c2 t h ih =>
    have h1 : c1 = ' ' := by simpa using (Bool.and_eq_true ..).mp h |>.1
    have h2 : c2 = ' ' := by simpa using (Bool.and_eq_true ..).mp h |>.2
    simp only [collapseSpaces, if_pos h]
    rw [ih]
    simp [h1, h2]
  | case4 c1 c2 t h ih =>
    simp only [collapseSpaces, if_neg h, List.head?_cons]

theorem collapseSpaces_noDS (l : List Char) :
    hasSub [' ', ' '] (collapseSpaces l) = false := by
  induction l using collapseSpaces.induct with
  | case1 => rfl
  | case2 c => simp [collapseSpaces, hasSub, List.isPrefixOf, List.isEmpty]
  | case3 c1 c2 t h ih => simpa only [collapseSpaces, if_pos h] using ih
  | case4 c1 c2 t h ih =>
    simp only [collapseSpaces, if_neg h]
    simp only [hasSub, Bool.or_eq_false_iff]
    refine ⟨?_, ih⟩
    cases hcs : collapseSpaces (c2 :: t) with
    | nil => simp [List.isPrefixOf]
    | cons d ds =>
      have hd : d = c2 := by
        have hh := collapseSpaces_head (c2 :: t)
        rw [hcs] at hh
        simpa using hh
      by_cases h1 : c1 = ' '
      · have h2 : ¬ c2 = ' ' := by
          intro h2
          exact h (by simp [h1, h2])
        subst hd
        simp [List.isPrefixOf, h2, Ne.symm h2]
      · simp [List.isPrefixOf, h1, Ne.symm h1]

theorem lastNLInRun_cons_nl (t : List Char) : lastNLInRun ('\n' :: t) ≠ none := by
  unfold lastNLInRun
  rw [if_pos (by decide)]
  cases lastNLInRun t <;> simp

theorem lastNLInRun_none_head (l : List Char) (h : lastNLInRun l = none) :
    l.head? ≠ some '\n' := by
  cases l with
  | nil => simp
  | cons c t =>
    intro hc
    have : c = '\n' := by simpa using hc
    subst this
    exact lastNLInRun_cons_nl t h

theorem lastNLInRun_drop_head (l : List Char) (j : Nat) (h : lastNLInRun l = some j) :
    (l.drop (j + 1)).head? ≠ some '\n' := by
  induction l generalizing j with
  | nil => simp [lastNLInRun] at h
  | cons c t ih =>
    unfold lastNLInRun at h
    by_cases hc : pySpace c
    · rw [if_pos hc] at h
      cases he : lastNLInRun t with
      | some j' =>
        rw [he] at h
        injection h with hj
        subst hj
        simpa [List.drop_succ_cons] using ih j' he
      | none =>
        rw [he] at h
        by_cases hn : c = '\n'
        · rw [if_pos hn] at h
          injection h with hj
          subst hj
          simp only [List.drop_succ_cons, List.drop_zero]
          exact lastNLInRun_none_head t he
        · rw [if_neg hn] at h; cases h
    · rw [if_neg hc] at h; cases h

theorem collapseNLGo_head (fuel : Nat) (l : List Char) :
    (collapseNLGo fuel l).head? = l.head? := by
  induction fuel, l using collapseNLGo.induct with
  | case1 t => cases t <;> rfl
  | case2 l h =>
    cases l with
    | nil => rfl
    | cons c t => rfl
  | case3 fuel rest j hj ih => simp [collapseNLGo, hj]
  | case4 fuel rest hj ih => simp [collapseNLGo, hj]
  | case5 fuel c rest hc ih => simp [collapseNLGo, hc]

theorem collapseNLGo_noTNL : ∀ (fuel : Nat) (l : List Char), l.length ≤ fuel →
    hasSub ['\n', '\n', '\n'] (collapseNLGo fuel l) = false := by
  intro fuel l
  induction fuel, l using collapseNLGo.induct with
  | case1 t => intro _; cases t <;> rfl
  | case2 l h =>
    intro hf
    have : l = [] := List.length_eq_zero.mp (Nat.le_zero.mp hf)
    exact absurd this h
  | case3 fuel rest j hj ih =>
    intro hf
    have hrest : rest.length ≤ fuel := by
      simp only [List.length_cons] at hf; omega
    have hlen : (rest.drop (j + 1)).length ≤ fuel := by
      have := List.length_drop (j + 1) rest
      omega
    have hz := ih hlen
    have hzh := collapseNLGo_head fuel (rest.drop (j + 1))
    have hnh := lastNLInRun_drop_head rest j hj
    simp only [collapseNLGo, hj]
    simp only [hasSub, Bool.or_eq_false_iff]
    refine ⟨?_, ?_, hz⟩
    · cases hss : collapseNLGo fuel (rest.drop (j + 1)) with
      | nil => simp [List.isPrefixOf]
      | cons d ds =>
        have hd : d ≠ '\n' := by
          rw [hss] at hzh
          intro hdd
          exact hnh (by rw [← hzh, hdd]; rfl)
        simp [List.isPrefixOf, Ne.symm hd]
    · cases hss : collapseNLGo fuel (rest.drop (j + 1)) with
      | nil => simp [List.isPrefixOf]
      | cons d ds =>
        have hd : d ≠ '\n' := by
          rw [hss] at hzh
          intro hdd
          exact hnh (by rw [← hzh, hdd]; rfl)
        simp [List.isPrefixOf, Ne.symm hd]
  | case4 fuel rest hj ih =>
    intro hf
    have hrest : rest.length ≤ fuel := by
      simp only [List.length_cons] at hf; omega
    have hz := ih hrest
    have hzh := collapseNLGo_head fuel rest
    have hnh := lastNLInRun_none_head rest hj
    simp only [collapseNLGo, hj]
    simp only [hasSub, Bool.or_eq_false_iff]
    refine ⟨?_, hz⟩
    cases hss : collapseNLGo fuel rest with
    | nil => simp [List.isPrefixOf]
    | cons d ds =>
      have hd : d ≠ '\n' := by
        rw [hss] at hzh
        intro hdd
        exact hnh (by rw [← hzh, hdd]; rfl)
      simp [List.isPrefixOf, Ne.symm hd]
  | case5 fuel c rest hc ih =>
    intro hf
    have hrest : rest.length ≤ fuel := by
      simp only [List.length_cons] at hf; omega
    simp only [collapseNLGo, if_neg hc]
    simp only [hasSub, Bool.or_eq_false_iff]
    exact ⟨by simp [List.isPrefixOf, Ne.symm hc], ih hrest⟩

theorem collapseSpaces_noTNL (l : List Char)
    (h : hasSub ['\n', '\n', '\n'] l = false) :
    hasSub ['\n', '\n', '\n'] (collapseSpaces l) = false := by
  induction l using collapseSpaces.induct with
  | case1 => rfl
  | case2 c => simp [collapseSpaces, hasSub, List.isPrefixOf, List.isEmpty]
  | case3 c1 c2 t hcond ih =>
    have ht : hasSub ['\n', '\n', '\n'] (c2 :: t) = false :=
      (Bool.or_eq_false_iff.mp (by simpa only [hasSub] using h)).2
    simpa only [collapseSpaces, if_pos hcond] using ih ht
  | case4 c1 c2 t hcond ih =>
    have ht : hasSub ['\n', '\n', '\n'] (c2 :: t) = false :=
      (Bool.or_eq_false_iff.mp (by simpa only [hasSub] using h)).2
    simp only [collapseSpaces, if_neg hcond]
    simp only [hasSub, Bool.or_eq_false_iff]
    refine ⟨?_, ih ht⟩
    by_cases h1 : c1 = '\n'
    · subst h1
      cases t with
      | nil => simp [collapseSpaces, List.isPrefixOf]
      | cons t0 t1 =>
        by_cases h2 : c2 = '\n'
        · subst h2
          have hred : collapseSpaces ('\n' :: t0 :: t1)
              = '\n' :: collapseSpaces (t0 :: t1) := by
            simp [collapseSpaces]
          rw [hred]
          by_cases h3 : t0 = '\n'
          · exfalso
            subst h3
            simp [hasSub, List.isPrefixOf] at h
          · have hh := collapseSpaces_head (t0 :: t1)
            cases hss : collapseSpaces (t0 :: t1) with
            | nil => simp [List.isPrefixOf]
            | cons d ds =>
              rw [hss] at hh
              have hd : d = t0 := by simpa using hh
              subst hd
              simp [List.isPrefixOf, Ne.symm h3]
        · have hh := collapseSpaces_head (c2 :: t0 :: t1)
          cases hss : collapseSpaces (c2 :: t0 :: t1) with
          | nil => simp [List.isPrefixOf]
          | cons d ds =>
            rw [hss] at hh
            have hd : d = c2 := by simpa using hh
            subst hd
            simp [List.isPrefixOf, Ne.symm h2]
    · simp [List.isPrefixOf, Ne.symm h1]

theorem replCRLF_head_space (l : List Char) (h : (replCRLF l).head? = some ' ') :
    l.head? = some ' ' := by
  induction l using replCRLF.induct with
  | case1 => simp [replCRLF] at h
  | case2 c => simpa [replCRLF] using h
  | case3 c c2 t hcond ih =>
    rw [show replCRLF (c :: c2 :: t) = '\n' :: replCRLF t from by
      simp only [replCRLF, if_pos hcond]] at h
    simp at h
  | case4 c c2 t hcond ih =>
    rw [show replCRLF (c :: c2 :: t) = c :: replCRLF (c2 :: t) from by
      simp only [replCRLF, if_neg hcond]] at h
    simpa using h

theorem replCRLF_noDS (l : List Char) (h : hasSub [' ', ' '] l = false) :
    hasSub [' ', ' '] (replCRLF l) = false := by
  induction l using replCRLF.induct with
  | case1 => rfl
  | case2 c => simpa [replCRLF] using h
  | case3 c c2 t hcond ih =>
    have ht : hasSub [' ', ' '] t = false :=
      (Bool.or_eq_false_iff.mp (by
        simpa only [hasSub] using
          (Bool.or_eq_false_iff.mp (by simpa only [hasSub] using h)).2)).2
    rw [show replCRLF (c :: c2 :: t) = '\n' :: replCRLF t from by
      simp only [replCRLF, if_pos hcond]]
    simp only [hasSub, Bool.or_eq_false_iff]
    exact ⟨by simp [List.isPrefixOf], ih ht⟩
  | case4 c c2 t hcond ih =>
    have ht : hasSub [' ', ' '] (c2 :: t) = false :=
      (Bool.or_eq_false_iff.mp (by simpa only [hasSub] using h)).2
    rw [show replCRLF (c :: c2 :: t) = c :: replCRLF (c2 :: t) from by
      simp only [replCRLF, if_neg hcond]]
    simp only [hasSub, Bool.or_eq_false_iff]
    refine ⟨?_, ih ht⟩
    by_cases hsp : c = ' '
    · cases hss : replCRLF (c2 :: t) with
      | nil => simp [List.isPrefixOf]
      | cons d ds =>
        by_cases hd : d = ' '
        · exfalso
          have hc2 : c2 = ' ' := by
            have := replCRLF_head_space (c2 :: t) (by rw [hss, hd]; rfl)
            simpa using this
          rw [hsp, hc2] at h
          simp [hasSub, List.isPrefixOf] at h
        · simp [List.isPrefixOf, Ne.symm hd]
    · simp [List.isPrefixOf, Ne.symm hsp]

theorem replCR_noDS (l : List Char) (h : hasSub [' ', ' '] l = false) :
    hasSub [' ', ' '] (replCR l) = false := by
  induction l with
  | nil => rfl
  | cons c t ih =>
    have ht : hasSub [' ', ' '] t = false :=
      (Bool.or_eq_false_iff.mp (by simpa only [hasSub] using h)).2
    show hasSub [' ', ' '] ((if c = '\r' then '\n' else c) :: replCR t) = false
    simp only [hasSub, Bool.or_eq_false_iff]
    refine ⟨?_, ih ht⟩
    by_cases hc : c = '\r'
    · simp [List.isPrefixOf, hc]
    · by_cases hsp : c = ' '
      · cases t with
        | nil => simp [replCR, List.isPrefixOf, hsp, hc]
        | cons e es =>
          by_cases he : e = ' '
          · exfalso
            rw [hsp, he] at h
            simp [hasSub, List.isPrefixOf] at h
          · have hfe : (if e = '\r' then '\n' else e) ≠ ' ' := by
              by_cases hee : e = '\r' <;> simp [hee, he]
            show (List.isPrefixOf [' ', ' ']
              ((if c = '\r' then '\n' else c) :: (if e = '\r' then '\n' else e) :: replCR es)) = false
            simp [List.isPrefixOf, hc, Ne.symm hfe]
      · simp [List.isPrefixOf, hc, Ne.symm hsp]

theorem replCR_no_cr (l : List Char) : '\r' ∉ replCR l := by
  intro hmem
  obtain ⟨a, _, ha⟩ := List.mem_map.mp hmem
  by_cases hc : a = '\r' <;> simp [hc] at ha

theorem replCRLF_eq_self (l : List Char) (h : '\r' ∉ l) : replCRLF l = l := by
  induction l using replCRLF.induct with
  | case1 => rfl
  | case2 c => rfl
  | case3 c c2 t hcond ih => exact absurd (by simp [hcond.1]) h
  | case4 c c2 t hcond ih =>
    rw [show replCRLF (c :: c2 :: t) = c :: replCRLF (c2 :: t) from by
      simp only [replCRLF, if_neg hcond]]
    rw [ih (fun hm => h (List.mem_cons_of_mem c hm))]

theorem replCR_eq_self (l : List Char) (h : '\r' ∉ l) : replCR l = l := by
  unfold replCR
  rw [List.map_congr_left (g := id) ?_, List.map_id]
  intro a ha
  have : a ≠ '\r' := fun hh => h (hh ▸ ha)
  simp [this]

theorem mem_collapseNLGo : ∀ (fuel : Nat) (l : List Char) (c : Char),
    c ∈ collapseNLGo fuel l → c ∈ l ∨ c = '\n' := by
  intro fuel l
  induction fuel, l using collapseNLGo.induct with
  | case1 t =>
    intro c h
    rw [show collapseNLGo t [] = [] from by cases t <;> rfl] at h
    cases h
  | case2 l hne =>
    intro c h
    cases l with
    | nil => exact absurd rfl hne
    | cons d ds => exact Or.inl h
  | case3 fuel rest j hj ih =>
    intro c h
    simp only [collapseNLGo, hj, if_true, List.mem_cons, or_self_left] at h
    rcases h with h | h
    · exact Or.inr h
    · rcases ih c h with hm | hm
      · exact Or.inl (List.mem_cons_of_mem _ (List.drop_subset _ _ hm))
      · exact Or.inr hm
  | case4 fuel rest hj ih =>
    intro c h
    simp only [collapseNLGo, hj, if_true, List.mem_cons] at h
    rcases h with h | h
    · exact Or.inr h
    · rcases ih c h with hm | hm
      · exact Or.inl (List.mem_cons_of_mem _ hm)
      · exact Or.inr hm
  | case5 fuel c0 rest hc ih =>
    intro c h
    simp only [collapseNLGo, if_neg hc, List.mem_cons] at h
    rcases h with h | h
    · exact Or.inl (by simp [h])
    · rcases ih c h with hm | hm
      · exact Or.inl (List.mem_cons_of_mem _ hm)
      · exact Or.inr hm

theorem mem_collapseSpaces (l : List Char) (c : Char)
    (h : c ∈ collapseSpaces l) : c ∈ l := by
  induction l using collapseSpaces.induct with
  | case1 => cases h
  | case2 d => exact h
  | case3 c1 c2 t hcond ih =>
    simp only [collapseSpaces, if_pos hcond] at h
    exact List.mem_cons_of_mem _ (ih h)
  | case4 c1 c2 t hcond ih =>
    simp only [collapseSpaces, if_neg hcond, List.mem_cons] at h
    rcases h with h | h
    · simp [h]
    · exact List.mem_cons_of_mem _ (ih h)

theorem mem_replCRLF (l : List Char) (c : Char) (h : c ∈ replCRLF l) :
    c ∈ l ∨ c = '\n' := by
  induction l using replCRLF.induct with
  | case1 => cases h
  | case2 d => exact Or.inl h
  | case3 d c2 t hcond ih =>
    rw [show replCRLF (d :: c2 :: t) = '\n' :: replCRLF t from by
      simp only [replCRLF, if_pos hcond]] at h
    rcases List.mem_cons.mp h with h | h
    · exact Or.inr h
    · rcases ih h with hm | hm
      · exact Or.inl (List.mem_cons_of_mem _ (List.mem_cons_of_mem _ hm))
      · exact Or.inr hm
  | case4 d c2 t hcond ih =>
    rw [show replCRLF (d :: c2 :: t) = d :: replCRLF (c2 :: t) from by
      simp only [replCRLF, if_neg hcond]] at h
    rcases List.mem_cons.mp h with h | h
    · exact Or.inl (by simp [h])
    · rcases ih h with hm | hm
      · exact Or.inl (List.mem_cons_of_mem _ hm)
      · exact Or.inr hm

theorem pyStripL_eq_nil (l : List Char) (h : ∀ c ∈ l, pySpace c = true) :
    pyStripL l = [] := by
  have h1 : l.dropWhile pySpace = [] := List.dropWhile_eq_nil_iff.mpr h
  simp [pyStripL, pyStripLeft, pyStripRight, h1]

theorem pyStripL_nil_all_space (l : List Char) (h : pyStripL l = []) :
    ∀ c ∈ l, pySpace c = true := by
  intro c hc
  unfold pyStripL pyStripRight pyStripLeft at h
  have h2 : (l.dropWhile pySpace).reverse.dropWhile pySpace = [] := by
    have := congrArg List.reverse h
    simpa using this
  have h3 := List.dropWhile_eq_nil_iff.mp h2
  have hsplit := @List.takeWhile_append_dropWhile _ pySpace l
  rw [← hsplit] at hc
  rcases List.mem_append.mp hc with hmem | hmem
  · exact List.mem_takeWhile_imp hmem
  · exact h3 c (List.mem_reverse.mpr hmem)

theorem clean_text_blank (t : String) (h : pyStrip t = "") :
    clean_text_for_clause_detection t = "" := by
  have hall : ∀ c ∈ t.data, pySpace c = true := by
    apply pyStripL_nil_all_space
    have h0 : (pyStrip t).data = ("" : String).data := by rw [h]
    simpa [pyStrip] using h0
  have h1 : ∀ c ∈ collapseNL t.data, pySpace c = true := by
    intro c hc
    have hc' : c ∈ collapseNLGo t.data.length t.data := hc
    rcases mem_collapseNLGo _ _ c hc' with hm | hm
    · exact hall c hm
    · rw [hm]; rfl
  have h2 : ∀ c ∈ collapseSpaces (collapseNL t.data), pySpace c = true :=
    fun c hc => h1 c (mem_collapseSpaces _ c hc)
  have h3 : ∀ c ∈ replCRLF (collapseSpaces (collapseNL t.data)), pySpace c = true := by
    intro c hc
    rcases mem_replCRLF _ c hc with hm | hm
    · exact h2 c hm
    · rw [hm]; rfl
  have h4 : ∀ c ∈ replCR (replCRLF (collapseSpaces (collapseNL t.data))),
      pySpace c = true := by
    intro c hc
    obtain ⟨a, ha, hfa⟩ := List.mem_map.mp hc
    by_cases hr : a = '\r'
    · rw [← hfa, if_pos hr]; decide
    · rw [← hfa]; simpa [hr] using h3 a ha
  unfold clean_text_for_clause_detection
  rw [pyStripL_eq_nil _ h4]

theorem postFilterOrWhole_ne_nil (c : String) (l : List String) :
    postFilterOrWhole c l ≠ [] := by
  simp only [postFilterOrWhole]
  split
  · exact List.cons_ne_nil _ _
  · next hne => exact hne

/-- Claim C10: for every input string that is empty or consists only of
whitespace, `detect_clauses` returns the empty list (the guard at the top
of the function fires before normalisation, the three strategies, and the
whole-text fallback; totality of the Lean function embeds "without
raising"). -/
theorem detect_clauses_blank_empty (t : String) (h : pyStrip t = "") :
    detect_clauses t = [] := by
  simp only [detect_clauses]
  rw [if_pos (Or.inr h)]

theorem detect_clauses_blank_empty_witness :
    pyStrip " \t\n " = "" ∧ detect_clauses " \t\n " = [] :=
  ⟨by decide, detect_clauses_blank_empty " \t\n " (by decide)⟩

/-- Claim C1 counterexample: the claim quantifies over every non-empty
string, but the single-space string is non-empty and `detect_clauses`
returns the empty list on it, because the guard treats whitespace-only
input like empty input. -/
theorem detect_clauses_blank_cex :
    (" " : String) ≠ "" ∧ detect_clauses " " = [] := by
  constructor
  · decide
  · decide

/-- Claim C1 (amended): for every input string whose stripped form is
non-empty — i.e. containing at least one non-whitespace character —
`detect_clauses` returns a non-empty list; totality of the Lean function
embeds "never raises an exception". -/
theorem detect_clauses_nonempty (t : String) (h : pyStrip t ≠ "") :
    detect_clauses t ≠ [] := by
  have hg : ¬ (t = "" ∨ pyStrip t = "") := by
    rintro (rfl | h2)
    · exact h rfl
    · exact h h2
  simp only [detect_clauses]
  rw [if_neg hg]
  exact postFilterOrWhole_ne_nil _ _

theorem detect_clauses_nonempty_witness :
    pyStrip "hello" ≠ "" ∧ detect_clauses "hello" ≠ [] :=
  ⟨by decide, detect_clauses_nonempty "hello" (by decide)⟩

/-- Claim C7: every clause returned by `detect_clauses` has stripped length
strictly greater than 50, or the output is exactly the one-element list
holding the full normalised input text. -/
theorem postFilterOrWhole_spec (cl : String) (l : List String) :
    (∀ c ∈ postFilterOrWhole cl l, 50 < (pyStrip c).length) ∨
    postFilterOrWhole cl l = [cl] := by
  simp only [postFilterOrWhole]
  split
  · right; rfl
  · left
    intro c hc
    simp only [postFilter] at hc
    obtain ⟨a, _, hfa⟩ := List.mem_filterMap.mp hc
    by_cases hlen : 50 < (pyStrip a).length
    · rw [if_pos hlen] at hfa
      injection hfa with hfa
      rw [← hfa, pyStrip_idem]
      exact hlen
    · rw [if_neg hlen] at hfa
      cases hfa

theorem clause_length_invariant (t : String) :
    (∀ c ∈ detect_clauses t, 50 < (pyStrip c).length) ∨
    detect_clauses t = [clean_text_for_clause_detection t] := by
  simp only [detect_clauses]
  split
  · left
    intro c hc
    cases hc
  · exact postFilterOrWhole_spec _ _

theorem clause_length_invariant_witness :
    (∀ c ∈ detect_clauses "hello", 50 < (pyStrip c).length) ∨
    detect_clauses "hello" = [clean_text_for_clause_detection "hello"] :=
  clause_length_invariant "hello"

/-- Claim C9 counterexample: the normalizer runs the blank-line collapse
before carriage-return normalisation, so an input made of carriage returns
produces three consecutive newlines in the output, violating the claimed
invariant. -/
theorem clean_text_crlf_cex :
    clean_text_for_clause_detection "a\r\r\rb" = "a\n\n\nb" ∧
    hasSub ['\n', '\n', '\n'] ("a\n\n\nb" : String).data = true := by
  constructor
  · decide
  · decide

/-- Claim C9 (amended): the output of the normalizer never contains a
carriage return and never contains a run of repeated spaces; and for inputs
that contain no carriage return, it also never contains three or more
consecutive newlines.  (The unconditional newline bound of the original
claim fails because `\r`-made blank lines are normalised to newlines only
after the blank-line collapse.) -/
theorem clean_text_invariant_spec (t : String) :
    '\r' ∉ (clean_text_for_clause_detection t).data ∧
    hasSub [' ', ' '] (clean_text_for_clause_detection t).data = false ∧
    ('\r' ∉ t.data →
      hasSub ['\n', '\n', '\n'] (clean_text_for_clause_detection t).data = false) := by
  have hdata : (clean_text_for_clause_detection t).data
      = pyStripL (replCR (replCRLF (collapseSpaces (collapseNL t.data)))) := rfl
  refine ⟨?_, ?_, ?_⟩
  · rw [hdata]
    intro hmem
    have hinf := pyStripL_within (replCR (replCRLF (collapseSpaces (collapseNL t.data))))
    exact replCR_no_cr _ (hinf.subset hmem)
  · rw [hdata]
    apply hasSub_false_of_infix _ _ _ (pyStripL_within _)
    apply replCR_noDS
    apply replCRLF_noDS
    exact collapseSpaces_noDS _
  · intro hcr
    rw [hdata]
    have h1 : '\r' ∉ collapseNL t.data := by
      intro hm
      have hm' : '\r' ∈ collapseNLGo t.data.length t.data := hm
      rcases mem_collapseNLGo _ _ _ hm' with hm2 | hm2
      · exact hcr hm2
      · exact absurd hm2 (by decide)
    have h2 : '\r' ∉ collapseSpaces (collapseNL t.data) :=
      fun hm => h1 (mem_collapseSpaces _ _ hm)
    rw [replCRLF_eq_self _ h2]
    rw [replCR_eq_self _ h2]
    apply hasSub_false_of_infix _ _ _ (pyStripL_within _)
    apply collapseSpaces_noTNL
    exact collapseNLGo_noTNL t.data.length t.data (le_refl _)

theorem clean_text_invariant_witness :
    '\r' ∉ (clean_text_for_clause_detection "Hello  world\n\n\nEnd").data ∧
    hasSub [' ', ' '] (clean_text_for_clause_detection "Hello  world\n\n\nEnd").data = false ∧
    hasSub ['\n', '\n', '\n'] (clean_text_for_clause_detection "Hello  world\n\n\nEnd").data = false :=
  ⟨(clean_text_invariant_spec _).1, (clean_text_invariant_spec _).2.1,
    (clean_text_invariant_spec "Hello  world\n\n\nEnd").2.2 (by decide)⟩

/-- Claim C3 counterexample: on an input where the first numbered pattern
yields exactly two matches, the numbered strategy's split is two clauses,
yet `detect_clauses` ignores it (the code requires strictly more than two
clauses), falls through header and paragraph detection, and returns the
whole text — so "at least 2 matches" does not make the result equal the
numbered split. -/
theorem numbered_two_matches_cex :
    (scanP pat1 ("1. a\n2. b" : String).data).length = 2 ∧
    detect_numbered_clauses "1. a\n2. b" = ["1. a", "2. b"] ∧
    clean_text_for_clause_detection "1. a\n2. b" = "1. a\n2. b" ∧
    detect_clauses "1. a\n2. b" = ["1. a\n2. b"] ∧
    detect_clauses "1. a\n2. b" ≠ ["1. a", "2. b"] := by
  refine ⟨by decide, by decide, by decide, by decide, by decide⟩

/-- Claim C3 (amended): if the numbered strategy (first pattern with at
least two matches) produces strictly more than two clauses, segmentation
uses exactly its split, post-filtered to stripped length greater than 50
(whole text if the filter empties it), and the header and paragraph
strategies are not used; if the numbered strategy produces at most two
clauses but the header strategy produces at least two, segmentation uses
the header split the same way — numbered is preferred over header-keyword,
which is preferred over the paragraph fallback. -/
theorem numbered_precedence_spec (t : String) :
    (2 < (detect_numbered_clauses (clean_text_for_clause_detection t)).length →
      detect_clauses t = postFilterOrWhole (clean_text_for_clause_detection t)
        (detect_numbered_clauses (clean_text_for_clause_detection t))) ∧
    ((detect_numbered_clauses (clean_text_for_clause_detection t)).length ≤ 2 →
      1 < (detect_header_based_clauses (clean_text_for_clause_detection t)).length →
      detect_clauses t = postFilterOrWhole (clean_text_for_clause_detection t)
        (detect_header_based_clauses (clean_text_for_clause_detection t))) := by
  by_cases hg : t = "" ∨ pyStrip t = ""
  · have hb : pyStrip t = "" := by
      rcases hg with rfl | h
      · rfl
      · exact h
    have hcl : clean_text_for_clause_detection t = "" := clean_text_blank t hb
    rw [hcl]
    constructor
    · intro hn
      rw [show detect_numbered_clauses "" = [] from by decide] at hn
      simp at hn
    · intro _ hh
      rw [show detect_header_based_clauses "" = [] from by decide] at hh
      simp at hh
  · constructor
    · intro hn
      have hne : detect_numbered_clauses (clean_text_for_clause_detection t) ≠ [] :=
        List.length_pos.mp (by omega)
      simp only [detect_clauses]
      rw [if_neg hg, if_pos ⟨hne, hn⟩]
    · intro hle hh
      have hne : detect_header_based_clauses (clean_text_for_clause_detection t) ≠ [] :=
        List.length_pos.mp (by omega)
      have hnc : ¬ (detect_numbered_clauses (clean_text_for_clause_detection t) ≠ [] ∧
          2 < (detect_numbered_clauses (clean_text_for_clause_detection t)).length) := by
        rintro ⟨_, h2⟩
        omega
      simp only [detect_clauses]
      rw [if_neg hg, if_neg hnc, if_pos ⟨hne, hh⟩]

theorem numbered_precedence_witness :
    2 < (detect_numbered_clauses (clean_text_for_clause_detection
      "1. Alpha obligations of the first party are described here at length.\n2. Beta obligations of the second party are described here at length.\n3. Gamma obligations of the third party are described here at length.")).length ∧
    detect_clauses
      "1. Alpha obligations of the first party are described here at length.\n2. Beta obligations of the second party are described here at length.\n3. Gamma obligations of the third party are described here at length."
      = postFilterOrWhole (clean_text_for_clause_detection
          "1. Alpha obligations of the first party are described here at length.\n2. Beta obligations of the second party are described here at length.\n3. Gamma obligations of the third party are described here at length.")
        (detect_numbered_clauses (clean_text_for_clause_detection
          "1. Alpha obligations of the first party are described here at length.\n2. Beta obligations of the second party are described here at length.\n3. Gamma obligations of the third party are described here at length.")) :=
  ⟨by decide, (numbered_precedence_spec _).1 (by decide)⟩

/-- Claim C4 counterexample: on the spec's example input the first numbered
pattern yields only two matches, which does not pass the strict `> 2`
threshold in `detect_clauses`; the header strategy matches nothing at a
line start and both paragraphs are 100 characters or shorter, so
segmentation returns one clause (the whole text), not two. -/
theorem example_contract_two_clauses_cex :
    detect_numbered_clauses
        "1. Term. This agreement lasts one year.\n\n2. Termination. Either party may terminate at will."
      = ["1. Term. This agreement lasts one year.",
         "2. Termination. Either party may terminate at will."] ∧
    detect_clauses
        "1. Term. This agreement lasts one year.\n\n2. Termination. Either party may terminate at will."
      = ["1. Term. This agreement lasts one year.\n\n2. Termination. Either party may terminate at will."] ∧
    (detect_clauses
        "1. Term. This agreement lasts one year.\n\n2. Termination. Either party may terminate at will.").length
      ≠ 2 := by
  refine ⟨by decide, by decide, by decide⟩

/-- Claim C4 (amended): on the example input, `detect_clauses` returns
exactly one clause — the whole normalised text — and the keyword risk
matcher applied to that clause returns exactly the broad-termination-rights
description, triggered by the substring "terminate at will". -/
theorem example_contract_segmentation :
    detect_clauses
        "1. Term. This agreement lasts one year.\n\n2. Termination. Either party may terminate at will."
      = ["1. Term. This agreement lasts one year.\n\n2. Termination. Either party may terminate at will."] ∧
    hasSubStr "terminate at will"
        (pyLower "1. Term. This agreement lasts one year.\n\n2. Termination. Either party may terminate at will.")
      = true ∧
    detect_keyword_based_risks
        "1. Term. This agreement lasts one year.\n\n2. Termination. Either party may terminate at will."
      = "Broad termination rights - the other party can end the agreement easily" := by
  refine ⟨by decide, by decide, by decide⟩

theorem dictGet_dictSet_self : ∀ (d : PyDict) (k : String) (v : Json),
    dictGet (dictSet d k v) k = some v
  | JsonFields.nil, k, v => by simp [dictSet, dictGet]
  | JsonFields.cons k' v' t, k, v => by
    by_cases h : k' = k
    · simp [dictSet, dictGet, h]
    · simp [dictSet, dictGet, h, dictGet_dictSet_self t k v]

theorem dictGet_dictSet_ne : ∀ (d : PyDict) (k' k : String) (v : Json),
    k' ≠ k → dictGet (dictSet d k' v) k = dictGet d k
  | JsonFields.nil, k', k, v, h => by simp [dictSet, dictGet, h]
  | JsonFields.cons k0 v0 t, k', k, v, h => by
    by_cases h0 : k0 = k'
    · subst h0
      simp [dictSet, dictGet, h]
    · simp only [dictSet, if_neg h0, dictGet]
      by_cases h1 : k0 = k
      · simp [h1]
      · simp [h1, dictGet_dictSet_ne t k' k v h]

theorem hasKey_dictSet_self (d : PyDict) (k : String) (v : Json) :
    hasKey (dictSet d k v) k = true := by
  simp [hasKey, dictGet_dictSet_self]

theorem hasKey_dictSet_mono (d : PyDict) (k k' : String) (v : Json)
    (h : hasKey d k = true) : hasKey (dictSet d k' v) k = true := by
  by_cases he : k' = k
  · subst he; exact hasKey_dictSet_self d k' v
  · unfold hasKey at h ⊢
    rw [dictGet_dictSet_ne _ _ _ _ he]
    exact h

theorem pyTruthyOpt_isSome (o : Option Json) (h : pyTruthyOpt o = true) :
    o.isSome = true := by
  cases o with
  | none => cases h
  | some j => rfl

theorem backfillStep_hasKey_self (a : PyDict) (f : String) :
    hasKey (backfillStep a f) f = true := by
  unfold backfillStep
  split
  · next h => exact h
  · exact hasKey_dictSet_self _ _ _

theorem backfillStep_hasKey_mono (a : PyDict) (f k : String)
    (h : hasKey a k = true) : hasKey (backfillStep a f) k = true := by
  unfold backfillStep
  split
  · exact h
  · exact hasKey_dictSet_mono _ _ _ _ h

theorem backfillRequired_eq (d : PyDict) :
    backfillRequired d
      = backfillStep (backfillStep (backfillStep d "clause_type") "summary") "risk_flag" := rfl

theorem backfillRequired_hasKey_ct (d : PyDict) :
    hasKey (backfillRequired d) "clause_type" = true := by
  rw [backfillRequired_eq]
  exact backfillStep_hasKey_mono _ _ _
    (backfillStep_hasKey_mono _ _ _ (backfillStep_hasKey_self _ _))

theorem backfillRequired_hasKey_sm (d : PyDict) :
    hasKey (backfillRequired d) "summary" = true := by
  rw [backfillRequired_eq]
  exact backfillStep_hasKey_mono _ _ _ (backfillStep_hasKey_self _ _)

theorem backfillRequired_hasKey_rf (d : PyDict) :
    hasKey (backfillRequired d) "risk_flag" = true := by
  rw [backfillRequired_eq]
  exact backfillStep_hasKey_self _ _

theorem parse_non_json_hasKey (s : String) (k : String)
    (h : hasKey pnjBase k = true) :
    hasKey (parse_non_json_response s) k = true := by
  have m1 : ∀ (a : PyDict) (g : List Char), hasKey a k = true →
      hasKey (dictSet a "clause_type" (Json.str (pyStrip (String.mk g)))) k = true :=
    fun a g ha => hasKey_dictSet_mono _ _ _ _ ha
  have m2 : ∀ (a : PyDict) (g : List Char), hasKey a k = true →
      hasKey (dictSet a "summary" (Json.str (pyStrip (String.mk g)))) k = true :=
    fun a g ha => hasKey_dictSet_mono _ _ _ _ ha
  simp only [parse_non_json_response]
  split
  · apply hasKey_dictSet_mono
    apply hasKey_dictSet_mono
    cases searchCap summaryMatchAt s.data with
    | none =>
      cases searchCap typeMatchAt s.data with
      | none => exact h
      | some g => exact m1 _ _ h
    | some g =>
      apply m2
      cases searchCap typeMatchAt s.data with
      | none => exact h
      | some g2 => exact m1 _ _ h
  · cases searchCap summaryMatchAt s.data with
    | none =>
      cases searchCap typeMatchAt s.data with
      | none => exact h
      | some g => exact m1 _ _ h
    | some g =>
      apply m2
      cases searchCap typeMatchAt s.data with
      | none => exact h
      | some g2 => exact m1 _ _ h

theorem parse_obj_hasKey_mono (fields : PyDict) (k : String)
    (h : hasKey (backfillRequired fields) k = true) :
    hasKey (parse_obj_fields fields) k = true := by
  have step1 : ∀ (b : Bool) (a : PyDict) (v : Json), hasKey a k = true →
      hasKey (if b = true then dictSet a "risk_reason" v else a) k = true := by
    intro b a v ha
    split
    · exact hasKey_dictSet_mono _ _ _ _ ha
    · exact ha
  have step2 : ∀ (a : PyDict), hasKey a k = true →
      hasKey (if hasKey a "confidence" = true then a
        else dictSet a "confidence" (Json.num 7 (-1))) k = true := by
    intro a ha
    split
    · exact ha
    · exact hasKey_dictSet_mono _ _ _ _ ha
  simp only [parse_obj_fields]
  exact step2 _ (step1 _ _ _ h)

theorem parse_obj_hasKey_conf (fields : PyDict) :
    hasKey (parse_obj_fields fields) "confidence" = true := by
  have step : ∀ (a : PyDict),
      hasKey (if hasKey a "confidence" = true then a
        else dictSet a "confidence" (Json.num 7 (-1))) "confidence" = true := by
    intro a
    split
    · next h => exact h
    · exact hasKey_dictSet_self _ _ _
  simp only [parse_obj_fields]
  exact step _

theorem confStep_hasKey (a : PyDict) (k : String) (h : hasKey a k = true) :
    hasKey (if hasKey a "confidence" = true then a
      else dictSet a "confidence" (Json.num 7 (-1))) k = true := by
  split
  · exact h
  · exact hasKey_dictSet_mono _ _ _ _ h

theorem confStep_dictGet (a : PyDict) (k : String) (hk : k ≠ "confidence") :
    dictGet (if hasKey a "confidence" = true then a
      else dictSet a "confidence" (Json.num 7 (-1))) k = dictGet a k := by
  split
  · rfl
  · exact dictGet_dictSet_ne _ _ _ _ (Ne.symm hk)

theorem parse_obj_risk_reason (fields : PyDict)
    (h : pyTruthyOpt (dictGet (parse_obj_fields fields) "risk_flag") = true) :
    hasKey (parse_obj_fields fields) "risk_reason" = true := by
  simp only [parse_obj_fields] at h ⊢
  by_cases hC : (pyTruthyOpt (dictGet (backfillRequired fields) "risk_flag") &&
      !pyTruthyOpt (dictGet (backfillRequired fields) "risk_reason")) = true
  · rw [if_pos hC]
    exact confStep_hasKey _ _ (hasKey_dictSet_self _ _ _)
  · rw [if_neg hC] at h ⊢
    rw [confStep_dictGet _ _ (by decide)] at h
    rw [h] at hC
    simp only [Bool.true_and] at hC
    have hrr : pyTruthyOpt (dictGet (backfillRequired fields) "risk_reason") = true := by
      cases hy : pyTruthyOpt (dictGet (backfillRequired fields) "risk_reason") with
      | false => rw [hy] at hC; simp at hC
      | true => rfl
    exact confStep_hasKey _ _ (pyTruthyOpt_isSome _ hrr)

/-- Claim C5 counterexample: when the (fence-stripped) response is valid
JSON whose top-level value is not an object — here the document `3` — the
field accesses after `json.loads` raise an uncaught `TypeError`, so the
parser does not return a fully populated record for every input string. -/
theorem parse_gemini_nonobject_cex :
    parse_gemini_response "3" = Except.error PyErr.typeError ∧
    json_loads "3" = Except.ok (Json.num 3 0) := by
  refine ⟨by decide, by decide⟩

/-- Claim C5 (amended): for every input string, `parse_gemini_response`
either raises a type error — exactly when the fence-stripped input is a
JSON document whose value is not an object — or returns a record in which
clause_type, summary, risk_flag and confidence are always populated and
risk_reason is populated whenever risk_flag is truthy (when risk_flag is
falsy the JSON path may leave risk_reason absent, to be defaulted by the
consumer). -/
theorem parse_gemini_total_spec (s : String) :
    (∃ d, parse_gemini_response s = Except.ok d ∧
      hasKey d "clause_type" = true ∧ hasKey d "summary" = true ∧
      hasKey d "risk_flag" = true ∧ hasKey d "confidence" = true ∧
      (pyTruthyOpt (dictGet d "risk_flag") = true → hasKey d "risk_reason" = true)) ∨
    (parse_gemini_response s = Except.error PyErr.typeError ∧
      ∃ v, json_loads (fenceStrip s) = Except.ok v ∧ isObjJson v = false) := by
  unfold parse_gemini_response
  cases hv : json_loads (fenceStrip s) with
  | error e =>
    left
    exact ⟨parse_non_json_response s, rfl,
      parse_non_json_hasKey s _ (by decide), parse_non_json_hasKey s _ (by decide),
      parse_non_json_hasKey s _ (by decide), parse_non_json_hasKey s _ (by decide),
      fun _ => parse_non_json_hasKey s _ (by decide)⟩
  | ok v =>
    cases v with
    | obj fields =>
      left
      exact ⟨parse_obj_fields fields, rfl,
        parse_obj_hasKey_mono _ _ (backfillRequired_hasKey_ct _),
        parse_obj_hasKey_mono _ _ (backfillRequired_hasKey_sm _),
        parse_obj_hasKey_mono _ _ (backfillRequired_hasKey_rf _),
        parse_obj_hasKey_conf _,
        parse_obj_risk_reason _⟩
    | null => right; exact ⟨rfl, Json.null, rfl, rfl⟩
    | bool b => right; exact ⟨rfl, Json.bool b, rfl, rfl⟩
    | num m e => right; exact ⟨rfl, Json.num m e, rfl, rfl⟩
    | nan => right; exact ⟨rfl, Json.nan, rfl, rfl⟩
    | inf ng => right; exact ⟨rfl, Json.inf ng, rfl, rfl⟩
    | str st => right; exact ⟨rfl, Json.str st, rfl, rfl⟩
    | arr es => right; exact ⟨rfl, Json.arr es, rfl, rfl⟩

theorem parse_gemini_total_witness :
    (∃ d, parse_gemini_response "\x7b\"risk_flag\": true\x7d" = Except.ok d ∧
      hasKey d "clause_type" = true ∧ hasKey d "summary" = true ∧
      hasKey d "risk_flag" = true ∧ hasKey d "confidence" = true ∧
      (pyTruthyOpt (dictGet d "risk_flag") = true → hasKey d "risk_reason" = true)) ∨
    (parse_gemini_response "\x7b\"risk_flag\": true\x7d" = Except.error PyErr.typeError ∧
      ∃ v, json_loads (fenceStrip "\x7b\"risk_flag\": true\x7d") = Except.ok v ∧
        isObjJson v = false) :=
  parse_gemini_total_spec "\x7b\"risk_flag\": true\x7d"

/-- Claim C6: for a clause the model analyzes successfully, if the keyword
matcher finds at least one category and the parsed model result did not
flag risk, the final analysis has risk_flag true and risk_reason equal to
the matcher's findings; if the model already flagged risk, the analysis —
including its risk_reason — is returned unchanged. -/
theorem keyword_override_spec (svc : String → Option String) (c rtext : String)
    (d : PyDict) (hs : svc c = some rtext) (hne : rtext ≠ "")
    (hp : parse_gemini_response rtext = Except.ok d) :
    (detect_keyword_based_risks c ≠ "" →
      pyTruthyOpt (dictGet d "risk_flag") = false →
      analyze_single_clause svc c = Except.ok
        (dictSet (dictSet d "risk_flag" (Json.bool true)) "risk_reason"
          (Json.str (detect_keyword_based_risks c))) ∧
      dictGet (dictSet (dictSet d "risk_flag" (Json.bool true)) "risk_reason"
          (Json.str (detect_keyword_based_risks c))) "risk_flag"
        = some (Json.bool true) ∧
      dictGet (dictSet (dictSet d "risk_flag" (Json.bool true)) "risk_reason"
          (Json.str (detect_keyword_based_risks c))) "risk_reason"
        = some (Json.str (detect_keyword_based_risks c))) ∧
    (pyTruthyOpt (dictGet d "risk_flag") = true →
      analyze_single_clause svc c = Except.ok d) := by
  constructor
  · intro hk hf
    refine ⟨?_, ?_, ?_⟩
    · simp only [analyze_single_clause, hs]
      rw [if_neg hne, hp]
      simp only []
      rw [if_pos ⟨hk, hf⟩]
    · rw [dictGet_dictSet_ne _ _ _ _ (by decide), dictGet_dictSet_self]
    · rw [dictGet_dictSet_self]
  · intro hf
    simp only [analyze_single_clause, hs]
    rw [if_neg hne, hp]
    simp only []
    rw [if_neg (fun hand => by rw [hf] at hand; exact absurd hand.2 (by simp))]

theorem keyword_override_witness :
    analyze_single_clause
        (fun _ => some "\x7b\"clause_type\": \"General\", \"summary\": \"S\", \"risk_flag\": false\x7d")
        "Either party may terminate at will."
      = Except.ok (pdict
          [("clause_type", Json.str "General"), ("summary", Json.str "S"),
           ("risk_flag", Json.bool true), ("confidence", Json.num 7 (-1)),
           ("risk_reason", Json.str
             "Broad termination rights - the other party can end the agreement easily")]) := by
  have h := (keyword_override_spec
      (fun _ => some "\x7b\"clause_type\": \"General\", \"summary\": \"S\", \"risk_flag\": false\x7d")
      "Either party may terminate at will."
      "\x7b\"clause_type\": \"General\", \"summary\": \"S\", \"risk_flag\": false\x7d"
      (pdict [("clause_type", Json.str "General"), ("summary", Json.str "S"),
        ("risk_flag", Json.bool false), ("confidence", Json.num 7 (-1))])
      rfl (by decide) (by decide)).1 (by decide) (by decide)
  exact h.1.trans (by decide)

/-- Claim C2: the batch analyzer returns exactly one record per input
clause, in order; each record is a function of that clause alone (so a
failure on one clause cannot change any other clause's record); and a
clause on which `analyze_single_clause` raises gets exactly the documented
fallback record.  Totality of the Lean function embeds "never raises". -/
theorem analyze_clauses_spec (svc : String → Option String) (clauses : List String) :
    (analyze_clauses_with_gemini svc clauses).length = clauses.length ∧
    (∀ i : Nat, (analyze_clauses_with_gemini svc clauses)[i]?
        = (clauses[i]?).map (geminiClauseRecord svc)) ∧
    (∀ c e, analyze_single_clause svc c = Except.error e →
      geminiClauseRecord svc c
        = { original_text := c,
            clause_type := Json.str "Unknown",
            summary := Json.str "Analysis failed - manual review required",
            risk_flag := Json.bool true,
            risk_reason := Json.str "Could not analyze with AI - requires manual review",
            confidence := Json.num 0 0 }) := by
  have hmap : analyze_clauses_with_gemini svc clauses
      = clauses.map (geminiClauseRecord svc) := by
    induction clauses with
    | nil => rfl
    | cons c t ih => simp [analyze_clauses_with_gemini, ih]
  refine ⟨?_, ?_, ?_⟩
  · rw [hmap, List.length_map]
  · intro i
    rw [hmap, List.getElem?_map]
  · intro c e he
    unfold geminiClauseRecord
    rw [he]

theorem analyze_clauses_spec_witness :
    (analyze_clauses_with_gemini (fun _ => none) ["first clause", "second clause"]).length = 2 ∧
    geminiClauseRecord (fun _ => none) "first clause"
      = { original_text := "first clause",
          clause_type := Json.str "Unknown",
          summary := Json.str "Analysis failed - manual review required",
          risk_flag := Json.bool true,
          risk_reason := Json.str "Could not analyze with AI - requires manual review",
          confidence := Json.num 0 0 : ClauseData } :=
  ⟨(analyze_clauses_spec (fun _ => none) ["first clause", "second clause"]).1,
   (analyze_clauses_spec (fun _ => none) ["first clause", "second clause"]).2.2
     "first clause" PyErr.serviceError rfl⟩

/-- Claim C8 counterexample: on the fenced example input the parser leaves
the risk_reason key entirely absent from the returned record (since
risk_flag is false) rather than returning it as the empty string. -/
theorem fenced_json_risk_reason_cex :
    parse_gemini_response "```json\n\x7b\"clause_type\":\"Payment\",\"summary\":\"...\",\"risk_flag\":false\x7d\n```"
      = Except.ok (pdict
          [("clause_type", Json.str "Payment"), ("summary", Json.str "..."),
           ("risk_flag", Json.bool false), ("confidence", Json.num 7 (-1))]) ∧
    dictGet (pdict
        [("clause_type", Json.str "Payment"), ("summary", Json.str "..."),
         ("risk_flag", Json.bool false), ("confidence", Json.num 7 (-1))]) "risk_reason"
      = none ∧
    dictGet (pdict
        [("clause_type", Json.str "Payment"), ("summary", Json.str "..."),
         ("risk_flag", Json.bool false), ("confidence", Json.num 7 (-1))]) "risk_reason"
      ≠ some (Json.str "") := by
  refine ⟨by decide, by decide, by decide⟩

/-- Claim C8 (amended): the parser strips the markdown fence, keeps the
present required keys, defaults the absent confidence to 0.7, and — since
risk_flag is false — does not force a placeholder reason: risk_reason is
left absent, so a consumer reading it with the analyzer's empty-string
default observes the empty string.  On an object that does flag risk
without a reason, absent required keys are backfilled with their defaults
and a placeholder reason is forced. -/
theorem fenced_json_parse_spec :
    parse_gemini_response "```json\n\x7b\"clause_type\":\"Payment\",\"summary\":\"...\",\"risk_flag\":false\x7d\n```"
      = Except.ok (pdict
          [("clause_type", Json.str "Payment"), ("summary", Json.str "..."),
           ("risk_flag", Json.bool false), ("confidence", Json.num 7 (-1))]) ∧
    jsonGetD (pdict
        [("clause_type", Json.str "Payment"), ("summary", Json.str "..."),
         ("risk_flag", Json.bool false), ("confidence", Json.num 7 (-1))])
        "risk_reason" (Json.str "")
      = Json.str "" ∧
    pyTruthyOpt (dictGet (pdict
        [("clause_type", Json.str "Payment"), ("summary", Json.str "..."),
         ("risk_flag", Json.bool false), ("confidence", Json.num 7 (-1))]) "risk_flag")
      = false ∧
    parse_gemini_response "\x7b\"risk_flag\": true\x7d"
      = Except.ok (pdict
          [("risk_flag", Json.bool true), ("clause_type", Json.str "Unknown"),
           ("summary", Json.str "No summary available"),
           ("risk_reason", Json.str "Potential risk detected but no specific reason provided"),
           ("confidence", Json.num 7 (-1))]) := by
  refine ⟨by decide, by decide, by decide, by decide⟩
